import Mathlib

/-!
# Verification of a reference-counted GC (single/multi shape, atomic and plain variants)

Shallow embedding of the repository's reference-counting core:

* `GCObject` — the thread-safe base class (include/gc/GCObject.h): an atomic
  `ref_count` (modelled as `Int`; all operations here are single atomic RMW
  steps, so a sequential interleaving of steps models every concurrent
  schedule), plus a ghost counter `destroys` recording how many times the
  virtual `destroy()` was invoked.
* `NonAtomicGC` — the plain-integer variant shown in src/README.md.
* `GCSingleObject` / `GCMultiObject` — the shape variants (allocation
  factories and teardown paths) from the GCMulti header.
* `Heap` / `Ref` — the owning handle `Ref<T>` (include/gc/Ref.h) acting on a
  heap of `GCObject`s addressed by `Nat`; a null pointer is `Option.none`.
* `RCState` / `ROp` — a machine over one managed object whose operations are
  the handle operations (construct from raw pointer, copy, move, assignment,
  scope exit), used for the whole-trace protocol invariant.
* `TEvent` — atomic thread events (one `incRef` or `decRef` RMW each) for the
  barrier-schedule concurrency property.
-/

set_option autoImplicit false

/-- State of a GC-managed object: its reference count (`std::atomic<int>
ref_count` in GCObject.h, initialised to 0) together with a history counter
`destroys` that records each invocation of the virtual `destroy()`. -/
structure GCObject where
  ref_count : Int
  destroys : Nat
deriving DecidableEq, Repr

/-- GCObject.h `incRef`: `ref_count.fetch_add(1, relaxed)` — one atomic
increment of the count, no other effect. -/
def GCObject.incRef (o : GCObject) : GCObject :=
  { o with ref_count := o.ref_count + 1 }

/-- GCObject.h `decRef`: `if (ref_count.fetch_sub(1, acq_rel) == 1) destroy();`
— one atomic decrement; the thread whose `fetch_sub` returned the old value 1
(post-decrement count 0) invokes `destroy()`. -/
def GCObject.decRef (o : GCObject) : GCObject :=
  if o.ref_count = 1 then
    { ref_count := o.ref_count - 1, destroys := o.destroys + 1 }
  else
    { o with ref_count := o.ref_count - 1 }

/-- src/README.md non-atomic variant `incRef`: `++ref_count;`. -/
def NonAtomicGC.incRef (o : GCObject) : GCObject :=
  { o with ref_count := o.ref_count + 1 }

/-- src/README.md non-atomic variant `decRef`:
`if (--ref_count == 0) destroy();` — pre-decrement, then destroy when the new
value is zero. -/
def NonAtomicGC.decRef (o : GCObject) : GCObject :=
  let newCount := o.ref_count - 1
  if newCount = 0 then
    { ref_count := newCount, destroys := o.destroys + 1 }
  else
    { o with ref_count := newCount }

/-- GCSingleObject `allocate_impl`: `new T(args...)` — a fresh object whose
GCObject base initialises `ref_count` to 0 and on which `destroy()` has never
run. The managed payload is outside the counting core. -/
def GCSingleObject.allocate_impl : GCObject :=
  { ref_count := 0, destroys := 0 }

/-- State of a GCMultiObject array allocation: the shared reference count and
destroy counter of the GCObject base, plus, per element of the `new T[count]`
run, the number of times that element's destructor has run. -/
structure GCMultiObject where
  ref_count : Int
  destroys : Nat
  elemDtorRuns : List Nat
deriving DecidableEq, Repr

/-- GCMultiObject `allocate_impl(count)`: `new T[count]` — `count` contiguous
default-constructed elements, `ref_count` 0, no destructor has run. -/
def GCMultiObject.allocate_impl (count : Nat) : GCMultiObject :=
  { ref_count := 0, destroys := 0, elemDtorRuns := List.replicate count 0 }

/-- GCMultiObject `destroy`: `delete[] this` — the array teardown path, which
runs every element's destructor exactly once. -/
def GCMultiObject.destroy (o : GCMultiObject) : GCMultiObject :=
  { o with destroys := o.destroys + 1, elemDtorRuns := o.elemDtorRuns.map (· + 1) }

/-- `decRef` as inherited by a GCMultiObject: the base-class decrement whose
virtual `destroy()` call dispatches to the array teardown. -/
def GCMultiObject.decRef (o : GCMultiObject) : GCMultiObject :=
  if o.ref_count = 1 then
    GCMultiObject.destroy { o with ref_count := o.ref_count - 1 }
  else
    { o with ref_count := o.ref_count - 1 }

/-- `incRef` as inherited by a GCMultiObject. -/
def GCMultiObject.incRef (o : GCMultiObject) : GCMultiObject :=
  { o with ref_count := o.ref_count + 1 }

/-- A heap assigning a `GCObject` state to every address; `Ref<T>` pointers
are addresses into it. -/
def Heap : Type := Nat → GCObject

/-- Effect of `p->incRef()` on the heap, `p` the address `a`. -/
def Heap.incRefAt (h : Heap) (a : Nat) : Heap :=
  Function.update h a ((h a).incRef)

/-- Effect of `p->decRef()` on the heap, `p` the address `a`. -/
def Heap.decRefAt (h : Heap) (a : Nat) : Heap :=
  Function.update h a ((h a).decRef)

/-- The owning handle `Ref<T>`: its single data member `T* ptr`, with
`none` for `nullptr` (the empty handle). -/
structure Ref where
  ptr : Option Nat
deriving DecidableEq, Repr

/-- Ref.h `explicit Ref(T* p) : ptr(p) { if (ptr) ptr->incRef(); }` —
construct from a raw pointer, incrementing if non-null. Returns the updated
heap and the new handle. -/
def Ref.ofRaw (h : Heap) (p : Option Nat) : Heap × Ref :=
  match p with
  | some a => (h.incRefAt a, ⟨some a⟩)
  | none => (h, ⟨none⟩)

/-- Ref.h copy constructor `Ref(const Ref& other) : ptr(other.ptr)
{ if (ptr) ptr->incRef(); }`. -/
def Ref.copyCtor (h : Heap) (other : Ref) : Heap × Ref :=
  match other.ptr with
  | some a => (h.incRefAt a, ⟨some a⟩)
  | none => (h, ⟨none⟩)

/-- Ref.h move constructor `Ref(Ref&& other) : ptr(other.ptr)
{ other.ptr = nullptr; }` — returns the unchanged heap, the new handle, and
the source handle after being emptied. -/
def Ref.moveCtor (h : Heap) (other : Ref) : Heap × Ref × Ref :=
  (h, ⟨other.ptr⟩, ⟨none⟩)

/-- Ref.h destructor `~Ref() { if (ptr) ptr->decRef(); }` — the release
performed at scope exit. -/
def Ref.drop (h : Heap) (r : Ref) : Heap :=
  match r.ptr with
  | some a => h.decRefAt a
  | none => h

/-- Ref.h `operator=(const Ref& other)`. `isSelf` models the aliasing test
`this == &other` (true exactly when the two handle lvalues are the same
object); on self-assignment the body returns immediately. Otherwise it
decrements any previously held pointer, adopts `other.ptr`, and increments
it. Returns the updated heap and the assigned-to handle. -/
def Ref.copyAssign (h : Heap) (dst other : Ref) (isSelf : Bool) : Heap × Ref :=
  if isSelf then (h, dst)
  else
    let h1 := Ref.drop h dst
    match other.ptr with
    | some a => (h1.incRefAt a, ⟨some a⟩)
    | none => (h1, ⟨none⟩)

/-- Ref.h `operator=(Ref&& other)`: after the `this == &other` test, decrement
any previously held pointer, adopt `other.ptr`, null out the source. Returns
the updated heap, the assigned-to handle, and the source afterwards. -/
def Ref.moveAssign (h : Heap) (dst other : Ref) (isSelf : Bool) : Heap × Ref × Ref :=
  if isSelf then (h, dst, other)
  else
    let h1 := Ref.drop h dst
    (h1, ⟨other.ptr⟩, ⟨none⟩)

/-- Ref.h `operator*() const { return *ptr; }` — dereference. The body
dereferences `ptr`; on a null pointer that is undefined behaviour, modelled
as `none`. -/
def Ref.star (h : Heap) (r : Ref) : Option GCObject :=
  match r.ptr with
  | some a => some (h a)
  | none => none

/-- Member access `r->field`: `operator->` returns `ptr` and the language
then dereferences it, undefined (`none`) when the handle is empty. -/
def Ref.memberAccess (h : Heap) (r : Ref) : Option GCObject :=
  match r.ptr with
  | some a => some (h a)
  | none => none

/-- Ref.h `T* get() const { return ptr; }` — raw-pointer retrieval. The body
performs no dereference, so the call is defined on every handle (outer
`some`); the inner value is the returned raw pointer, `none` for `nullptr`. -/
def Ref.getRaw (r : Ref) : Option (Option Nat) :=
  some r.ptr

/-- Ref.h `explicit operator bool() const { return ptr != nullptr; }` — the
emptiness check. The body only compares the pointer against `nullptr`, so the
call is defined on every handle (outer `some`). -/
def Ref.toBool (r : Ref) : Option Bool :=
  some r.ptr.isSome

/-- Number of `true` entries in a list of booleans (used to count the handles
that currently hold the managed object). -/
def countTrue : List Bool → Nat
  | [] => 0
  | b :: l => (if b then 1 else 0) + countTrue l

/-- State of a program manipulating owning handles that all reference one
managed object: the object's GC state, one boolean per handle lvalue (`true`
when that handle currently holds the object's pointer, `false` when it is
empty), and a history flag recording whether the raw pointer has ever been
wrapped by a handle. -/
structure RCState where
  obj : GCObject
  handles : List Bool
  wrapped : Bool
deriving DecidableEq, Repr

/-- Whether handle `i` currently holds the object (out-of-range handles are
treated as empty). -/
def RCState.holds (s : RCState) (i : Nat) : Bool :=
  s.handles.getD i false

/-- Number of handles currently holding the object. -/
def RCState.numHolding (s : RCState) : Nat :=
  countTrue s.handles

/-- Initial state: the object as returned by the factory (`ref_count` 0, never
destroyed), no handles yet. -/
def RCState.init : RCState :=
  { obj := { ref_count := 0, destroys := 0 }, handles := [], wrapped := false }

/-- The handle operations of Ref.h, specialised to handles on one object:
construct from the raw pointer, copy/move-construct from handle `i`,
copy/move-assign handle `j` into handle `i`, and scope exit of handle `i`. -/
inductive ROp where
  | fromRaw
  | copyFrom (i : Nat)
  | moveFrom (i : Nat)
  | copyAssign (i j : Nat)
  | moveAssign (i j : Nat)
  | scopeExit (i : Nat)
deriving DecidableEq, Repr

/-- One step of the handle machine; each case is the body of the
corresponding Ref.h member translated to the single-object state. -/
def RCState.step (s : RCState) : ROp → RCState
  | .fromRaw =>
      { s with obj := s.obj.incRef, handles := s.handles ++ [true], wrapped := true }
  | .copyFrom i =>
      if s.holds i then
        { s with obj := s.obj.incRef, handles := s.handles ++ [true] }
      else
        { s with handles := s.handles ++ [false] }
  | .moveFrom i =>
      { s with handles := (s.handles.set i false) ++ [s.holds i] }
  | .copyAssign i j =>
      if i = j then s
      else
        let s1 := if s.holds i then { s with obj := s.obj.decRef } else s
        let v := s.holds j
        let s2 := { s1 with handles := s1.handles.set i v }
        if v then { s2 with obj := s2.obj.incRef } else s2
  | .moveAssign i j =>
      if i = j then s
      else
        let s1 := if s.holds i then { s with obj := s.obj.decRef } else s
        { s1 with handles := (s1.handles.set i (s.holds j)).set j false }
  | .scopeExit i =>
      if s.holds i then
        { s with obj := s.obj.decRef, handles := s.handles.set i false }
      else
        { s with handles := s.handles.set i false }

/-- Run a sequence of handle operations. -/
def RCState.run (s : RCState) : List ROp → RCState
  | [] => s
  | op :: l => (s.step op).run l

/-- Well-formedness of one operation in a state: handle indices refer to
handles that exist, and the raw pointer is only wrapped while the object is
still alive (wrapping a freed pointer is use-after-free in the source). -/
def ROp.ok (s : RCState) : ROp → Bool
  | .fromRaw => s.obj.destroys = 0
  | .copyFrom i => i < s.handles.length
  | .moveFrom i => i < s.handles.length
  | .copyAssign i j => i < s.handles.length && j < s.handles.length
  | .moveAssign i j => i < s.handles.length && j < s.handles.length
  | .scopeExit i => i < s.handles.length

/-- Well-formedness of a whole operation sequence from a given state. -/
def RCState.validRun (s : RCState) : List ROp → Bool
  | [] => true
  | op :: l => op.ok s && (s.step op).validRun l

/-- An atomic thread event on the shared object: one `incRef` or one `decRef`
read-modify-write, tagged with the id of the thread performing it. -/
inductive TEvent where
  | inc (tid : Nat)
  | dec (tid : Nat)
deriving DecidableEq, Repr

/-- Whether an event is an increment. -/
def TEvent.isInc : TEvent → Bool
  | .inc _ => true
  | .dec _ => false

/-- Effect of one atomic event on the shared object. Each event is a single
atomic RMW, so an arbitrary thread interleaving is exactly a sequence of
these steps. -/
def TEvent.apply (o : GCObject) : TEvent → GCObject
  | .inc _ => o.incRef
  | .dec _ => o.decRef

/-- Run a schedule (a total order of the atomic events, i.e. one
interleaving) against the shared object. -/
def runSchedule (o : GCObject) : List TEvent → GCObject
  | [] => o
  | e :: l => runSchedule (e.apply o) l

/-- Barrier schedules for K threads: every thread's increment happens before
the barrier, every decrement after it, so an interleaving is any K increment
events followed by any K decrement events. -/
def barrierSchedule (K : Nat) (l : List TEvent) : Prop :=
  ∃ incs decs : List TEvent,
    l = incs ++ decs ∧
    (∀ e ∈ incs, e.isInc = true) ∧
    (∀ e ∈ decs, e.isInc = false) ∧
    incs.length = K ∧ decs.length = K

/-- A count operation, for comparing the two GCObject variants. -/
inductive COp where
  | inc
  | dec
deriving DecidableEq, Repr

/-- Run a sequence of count operations against the atomic variant
(GCObject.h). -/
def runAtomic (o : GCObject) : List COp → GCObject
  | [] => o
  | .inc :: l => runAtomic o.incRef l
  | .dec :: l => runAtomic o.decRef l

/-- Run a sequence of count operations against the plain-integer variant
(src/README.md). -/
def runPlain (o : GCObject) : List COp → GCObject
  | [] => o
  | .inc :: l => runPlain (NonAtomicGC.incRef o) l
  | .dec :: l => runPlain (NonAtomicGC.decRef o) l

/-! ### Helper lemmas about handle counting -/

theorem countTrue_append (l1 l2 : List Bool) :
    countTrue (l1 ++ l2) = countTrue l1 + countTrue l2 := by
  induction l1 with
  | nil => simp [countTrue]
  | cons a l ih => simp [countTrue, ih]; omega

theorem countTrue_set (l : List Bool) (i : Nat) (v : Bool) (hi : i < l.length) :
    countTrue (l.set i v) + (if l.getD i false then 1 else 0)
      = countTrue l + (if v then 1 else 0) := by
  induction l generalizing i with
  | nil => simp at hi
  | cons a l ih =>
    cases i with
    | zero => simp [countTrue, List.set, List.getD]; omega
    | succ n =>
      have hn : n < l.length := by simpa using hi
      have := ih n hn
      simp [countTrue, List.set, List.getD] at this ⊢
      omega

theorem countTrue_pos_of_getD (l : List Bool) (i : Nat) (h : l.getD i false = true) :
    1 ≤ countTrue l := by
  induction l generalizing i with
  | nil => simp [List.getD] at h
  | cons a l ih =>
    cases i with
    | zero => simp [List.getD] at h; simp [countTrue, h]
    | succ n =>
      simp [List.getD] at h
      have := ih n (by simpa [List.getD] using h)
      simp [countTrue]; omega

theorem countTrue_two_of_getD (l : List Bool) (i j : Nat) (hij : i ≠ j)
    (hi : l.getD i false = true) (hj : l.getD j false = true) :
    2 ≤ countTrue l := by
  induction l generalizing i j with
  | nil => simp [List.getD] at hi
  | cons a l ih =>
    cases i with
    | zero =>
      cases j with
      | zero => exact absurd rfl hij
      | succ m =>
        simp [List.getD] at hi hj
        have := countTrue_pos_of_getD l m (by simpa [List.getD] using hj)
        simp [countTrue, hi]; omega
    | succ n =>
      cases j with
      | zero =>
        simp [List.getD] at hi hj
        have := countTrue_pos_of_getD l n (by simpa [List.getD] using hi)
        simp [countTrue, hj]; omega
      | succ m =>
        simp [List.getD] at hi hj
        have := ih n m (by omega) (by simpa [List.getD] using hi) (by simpa [List.getD] using hj)
        simp [countTrue]; omega

theorem getD_set_ne (l : List Bool) (i j : Nat) (v : Bool) (hij : i ≠ j) :
    (l.set i v).getD j false = l.getD j false := by
  simp [List.getD, List.getElem?_set_ne hij]

/-! ### Claim theorems -/

/-- C2: an object is created by the shape-variant factory with count 0; the
first wrap of the raw pointer by the owning-handle constructor brings the
count to 1; and `decRef` decreases the count by one and invokes `destroy()`
exactly when the post-decrement count is zero. -/
theorem c2_lifecycle_protocol :
    GCSingleObject.allocate_impl.ref_count = 0 ∧
    (∀ n : Nat, (GCMultiObject.allocate_impl n).ref_count = 0) ∧
    (∀ (h : Heap) (a : Nat), h a = GCSingleObject.allocate_impl →
      ((Ref.ofRaw h (some a)).1 a).ref_count = 1 ∧
      (Ref.ofRaw h (some a)).2.ptr = some a) ∧
    (∀ o : GCObject,
      o.decRef.ref_count = o.ref_count - 1 ∧
      (o.decRef.destroys = o.destroys + 1 ↔ o.ref_count - 1 = 0) ∧
      (o.ref_count - 1 ≠ 0 → o.decRef.destroys = o.destroys)) := by
  refine ⟨rfl, fun n => rfl, ?_, ?_⟩
  · intro h a ha
    constructor
    · simp [Ref.ofRaw, Heap.incRefAt, Function.update_same, ha,
        GCObject.incRef, GCSingleObject.allocate_impl]
    · rfl
  · intro o
    unfold GCObject.decRef
    split
    · rename_i hc
      refine ⟨rfl, ?_, ?_⟩ <;> simp <;> omega
    · rename_i hc
      refine ⟨rfl, ?_, fun _ => rfl⟩
      simp
      omega

/-- Witness for C2 at a concrete heap, address, and object. -/
theorem c2_lifecycle_protocol_witness :
    ((Ref.ofRaw (fun _ => GCSingleObject.allocate_impl) (some 0)).1 0).ref_count = 1 ∧
    (GCObject.decRef { ref_count := 1, destroys := 0 }).destroys = 1 := by
  have h1 := (c2_lifecycle_protocol.2.2.1 (fun _ => GCSingleObject.allocate_impl) 0 rfl).1
  have h2 := ((c2_lifecycle_protocol.2.2.2 { ref_count := 1, destroys := 0 }).2.1).mpr (by decide)
  exact ⟨h1, by simpa using h2⟩

/-- C5: copy- or move-assigning a handle onto itself is a no-op — the heap
(hence every count) and the handle are unchanged, and no decrement or
destroy occurs. -/
theorem c5_self_assignment_noop (h : Heap) (r : Ref) :
    Ref.copyAssign h r r true = (h, r) ∧
    Ref.moveAssign h r r true = (h, r, r) := by
  constructor <;> rfl

/-- C6: an array allocated with 3 elements, wrapped once and released by that
single handle's scope exit, goes through the array teardown path exactly
once, running each of the 3 element destructors exactly once and no others. -/
theorem c6_array_teardown_once :
    ((GCMultiObject.allocate_impl 3).incRef.decRef.destroys = 1) ∧
    ((GCMultiObject.allocate_impl 3).incRef.decRef.elemDtorRuns = [1, 1, 1]) := by
  decide

/-- C10: decrementing an object whose count is already 0 does not invoke
`destroy()` — the `fetch_sub` returns a value other than 1, so destruction is
silently skipped, and the count becomes negative (−1 from 0); the
plain-integer variant behaves the same way. -/
theorem c10_decrement_below_zero (o : GCObject) (h : o.ref_count ≤ 0) :
    (o.decRef.ref_count = o.ref_count - 1 ∧
      o.decRef.ref_count < 0 ∧
      o.decRef.destroys = o.destroys) ∧
    (NonAtomicGC.decRef o = o.decRef) := by
  constructor
  · unfold GCObject.decRef
    split
    · rename_i hc; omega
    · exact ⟨rfl, by simp; omega, rfl⟩
  · unfold NonAtomicGC.decRef GCObject.decRef
    by_cases hc : o.ref_count = 1
    · simp [hc]
    · have h2 : ¬(o.ref_count - 1 = 0) := by omega
      simp [hc, h2]

/-- Witness for C10 at the concrete object with count 0: the count becomes
−1 and no destroy happens. -/
theorem c10_decrement_below_zero_witness :
    (GCObject.decRef { ref_count := 0, destroys := 0 }).ref_count = -1 ∧
    (GCObject.decRef { ref_count := 0, destroys := 0 }).destroys = 0 := by
  have h := c10_decrement_below_zero { ref_count := 0, destroys := 0 } (by decide)
  exact ⟨by rw [h.1.1]; decide, h.1.2.2⟩

/-- C9 counterexample: on the empty handle, the boolean emptiness check and
the raw-pointer retrieval are well-defined calls — their bodies perform no
pointer dereference, so they evaluate (to `false` and to the null pointer)
rather than being undefined behaviour, contradicting the claim that calling
any accessor on an empty handle is undefined behaviour. -/
theorem c9_empty_accessors_defined :
    Ref.toBool ⟨none⟩ = some false ∧ Ref.toBool ⟨none⟩ ≠ none ∧
    Ref.getRaw ⟨none⟩ = some none ∧ Ref.getRaw ⟨none⟩ ≠ none := by
  refine ⟨rfl, ?_, rfl, ?_⟩ <;> decide

/-- C9 (amended): dereference and member access are valid only while the
handle is holding — on an empty handle they dereference the null pointer
(undefined behaviour); raw-pointer retrieval and the boolean emptiness check
are well-defined on any handle, returning the null pointer and `false`
respectively when the handle is empty. -/
theorem c9_accessor_validity (h : Heap) (r : Ref) :
    (r.ptr = none →
      Ref.star h r = none ∧ Ref.memberAccess h r = none ∧
      Ref.getRaw r = some none ∧ Ref.toBool r = some false) ∧
    (∀ a : Nat, r.ptr = some a →
      Ref.star h r = some (h a) ∧ Ref.memberAccess h r = some (h a) ∧
      Ref.getRaw r = some (some a) ∧ Ref.toBool r = some true) := by
  constructor
  · intro hp
    simp [Ref.star, Ref.memberAccess, Ref.getRaw, Ref.toBool, hp]
  · intro a hp
    simp [Ref.star, Ref.memberAccess, Ref.getRaw, Ref.toBool, hp]

/-- Witness for the amended C9 at the empty handle and at a holding handle on
a concrete heap. -/
theorem c9_accessor_validity_witness :
    (Ref.star (fun _ => GCSingleObject.allocate_impl) ⟨none⟩ = none ∧
      Ref.toBool (⟨none⟩ : Ref) = some false) ∧
    (Ref.star (fun _ => GCSingleObject.allocate_impl) ⟨some 0⟩ =
      some GCSingleObject.allocate_impl ∧
      Ref.toBool (⟨some 0⟩ : Ref) = some true) := by
  have he := (c9_accessor_validity (fun _ => GCSingleObject.allocate_impl) ⟨none⟩).1 rfl
  have hh := (c9_accessor_validity (fun _ => GCSingleObject.allocate_impl) ⟨some 0⟩).2 0 rfl
  exact ⟨⟨he.1, he.2.2.2⟩, ⟨hh.1, hh.2.2.2⟩⟩

/-- C3: copy construction from a holding handle makes the destination hold
the same pointer and increments that object's count (destroying nothing);
copy assignment does the same after first decrementing the object the
destination previously held, which triggers destroy on that previous object
exactly when the destination was its last owner. -/
theorem c3_copy_shares_ownership (h : Heap) (src dst : Ref) (a b : Nat)
    (hsrc : src.ptr = some a) (hdst : dst.ptr = some b) (hab : a ≠ b) :
    ((Ref.copyCtor h src).2.ptr = some a ∧
      ((Ref.copyCtor h src).1 a).ref_count = (h a).ref_count + 1 ∧
      ((Ref.copyCtor h src).1 a).destroys = (h a).destroys) ∧
    ((Ref.copyAssign h dst src false).2.ptr = some a ∧
      ((Ref.copyAssign h dst src false).1 a).ref_count = (h a).ref_count + 1 ∧
      ((Ref.copyAssign h dst src false).1 a).destroys = (h a).destroys ∧
      ((Ref.copyAssign h dst src false).1 b).ref_count = (h b).ref_count - 1 ∧
      (((Ref.copyAssign h dst src false).1 b).destroys = (h b).destroys + 1 ↔
        (h b).ref_count = 1)) := by
  have hba : b ≠ a := fun hh => hab hh.symm
  constructor
  · refine ⟨by simp [Ref.copyCtor, hsrc], ?_, ?_⟩ <;>
      simp [Ref.copyCtor, hsrc, Heap.incRefAt, Function.update_same, GCObject.incRef]
  · refine ⟨by simp [Ref.copyAssign, hsrc], ?_, ?_, ?_, ?_⟩
    · simp [Ref.copyAssign, hsrc, Ref.drop, hdst, Heap.incRefAt, Heap.decRefAt,
        Function.update_same, Function.update_noteq hab, GCObject.incRef]
    · simp [Ref.copyAssign, hsrc, Ref.drop, hdst, Heap.incRefAt, Heap.decRefAt,
        Function.update_same, Function.update_noteq hab, GCObject.incRef]
    · simp [Ref.copyAssign, hsrc, Ref.drop, hdst, Heap.incRefAt, Heap.decRefAt,
        Function.update_same, Function.update_noteq hba, GCObject.decRef]
      split <;> rfl
    · simp [Ref.copyAssign, hsrc, Ref.drop, hdst, Heap.incRefAt, Heap.decRefAt,
        Function.update_same, Function.update_noteq hba]
      unfold GCObject.decRef
      split
      · rename_i hc; simp [hc]
      · rename_i hc; simp [hc]

/-- Witness for C3 on a concrete heap where both objects have count 1: the
copy-assignment brings the source object to count 2 and destroys the
destination's previous object. -/
theorem c3_copy_shares_ownership_witness :
    ((Ref.copyAssign (fun _ => { ref_count := 1, destroys := 0 })
        ⟨some 1⟩ ⟨some 0⟩ false).1 0).ref_count = 2 ∧
    ((Ref.copyAssign (fun _ => { ref_count := 1, destroys := 0 })
        ⟨some 1⟩ ⟨some 0⟩ false).1 1).destroys = 1 := by
  have h := c3_copy_shares_ownership (fun _ => { ref_count := 1, destroys := 0 })
    ⟨some 0⟩ ⟨some 1⟩ 0 1 rfl rfl (by decide)
  constructor
  · rw [h.2.2.1]; decide
  · rw [h.2.2.2.2.2.mpr rfl]

/-- C4: move construction leaves the heap (hence every count) untouched,
empties the source, and hands its pointer to the destination, whose later
scope exit performs exactly the release the source would have performed
(destroying when it was the last owner) while the emptied source's scope
exit releases nothing; move assignment first decrements the object the
destination previously held (destroying it when the destination was its last
owner), adopts the source's pointer without changing its object's count, and
empties the source. -/
theorem c4_move_transfers_ownership (h : Heap) (src dst : Ref) (a b : Nat)
    (hsrc : src.ptr = some a) (hdst : dst.ptr = some b) (hab : a ≠ b) :
    ((Ref.moveCtor h src).1 = h ∧
      (Ref.moveCtor h src).2.1.ptr = some a ∧
      (Ref.moveCtor h src).2.2.ptr = none ∧
      Ref.drop h (Ref.moveCtor h src).2.2 = h ∧
      Ref.drop h (Ref.moveCtor h src).2.1 = Ref.drop h src ∧
      ((Ref.drop h (Ref.moveCtor h src).2.1 a).destroys = (h a).destroys + 1 ↔
        (h a).ref_count = 1)) ∧
    ((Ref.moveAssign h dst src false).2.1.ptr = some a ∧
      (Ref.moveAssign h dst src false).2.2.ptr = none ∧
      (Ref.moveAssign h dst src false).1 a = h a ∧
      ((Ref.moveAssign h dst src false).1 b).ref_count = (h b).ref_count - 1 ∧
      (((Ref.moveAssign h dst src false).1 b).destroys = (h b).destroys + 1 ↔
        (h b).ref_count = 1)) := by
  have hba : b ≠ a := fun hh => hab hh.symm
  constructor
  · refine ⟨rfl, by simp [Ref.moveCtor, hsrc], rfl, rfl, ?_, ?_⟩
    · simp [Ref.moveCtor, Ref.drop, hsrc]
    · simp [Ref.moveCtor, Ref.drop, hsrc, Heap.decRefAt, Function.update_same,
        GCObject.decRef]
      split
      · rename_i hc; simp [hc]
      · rename_i hc; simp [hc]
  · refine ⟨by simp [Ref.moveAssign, hsrc], rfl, ?_, ?_, ?_⟩
    · simp [Ref.moveAssign, Ref.drop, hdst, Heap.decRefAt,
        Function.update_noteq hab]
    · simp [Ref.moveAssign, Ref.drop, hdst, Heap.decRefAt, Function.update_same,
        GCObject.decRef]
      split <;> rfl
    · simp [Ref.moveAssign, Ref.drop, hdst, Heap.decRefAt, Function.update_same,
        GCObject.decRef]
      split
      · rename_i hc; simp [hc]
      · rename_i hc; simp [hc]

/-- Witness for C4 on a concrete heap where both objects have count 1: the
moved-to handle's release destroys the object, and move assignment destroys
the destination's previous object while the adopted object's state is
untouched. -/
theorem c4_move_transfers_ownership_witness :
    (Ref.drop (fun _ => { ref_count := 1, destroys := 0 })
      (Ref.moveCtor (fun _ => { ref_count := 1, destroys := 0 })
        (⟨some 0⟩ : Ref)).2.1 0).destroys = 1 ∧
    ((Ref.moveAssign (fun _ => { ref_count := 1, destroys := 0 })
        ⟨some 1⟩ ⟨some 0⟩ false).1 0).ref_count = 1 ∧
    ((Ref.moveAssign (fun _ => { ref_count := 1, destroys := 0 })
        ⟨some 1⟩ ⟨some 0⟩ false).1 1).destroys = 1 := by
  have h := c4_move_transfers_ownership (fun _ => { ref_count := 1, destroys := 0 })
    ⟨some 0⟩ ⟨some 1⟩ 0 1 rfl rfl (by decide)
  refine ⟨?_, ?_, ?_⟩
  · rw [h.1.2.2.2.2.2.mpr rfl]
  · rw [h.2.2.2.1]
  · rw [h.2.2.2.2.2.mpr rfl]

/-- Stepwise agreement of the two variants: sequentially, the plain-integer
`decRef` (pre-decrement, test new value against 0) and the atomic `decRef`
(`fetch_sub`, test old value against 1) perform the same transition. -/
theorem decRef_plain_eq_atomic (o : GCObject) : NonAtomicGC.decRef o = o.decRef := by
  unfold NonAtomicGC.decRef GCObject.decRef
  by_cases hc : o.ref_count = 1
  · simp [hc]
  · have h2 : ¬(o.ref_count - 1 = 0) := by omega
    simp [hc, h2]

/-- C8: under sequential execution, the plain-integer variant and the atomic
variant are observationally equivalent — running any sequence of
increment/decrement operations from any object state produces identical
states, so (applying this to every prefix of a sequence) the two variants
agree on every intermediate count and invoke `destroy()` at the same point. -/
theorem c8_variants_equivalent (o : GCObject) (l : List COp) :
    runPlain o l = runAtomic o l := by
  induction l generalizing o with
  | nil => rfl
  | cons op l ih =>
    cases op with
    | inc => exact ih o.incRef
    | dec =>
      show runPlain (NonAtomicGC.decRef o) l = runAtomic o.decRef l
      rw [decRef_plain_eq_atomic]
      exact ih o.decRef

/-- Running a concatenation of schedules is running them in turn. -/
theorem runSchedule_append (o : GCObject) (l1 l2 : List TEvent) :
    runSchedule o (l1 ++ l2) = runSchedule (runSchedule o l1) l2 := by
  induction l1 generalizing o with
  | nil => rfl
  | cons e l ih => simp [runSchedule, ih]

/-- A schedule segment of increments only adds its length to the count and
destroys nothing. -/
theorem runSchedule_incs (o : GCObject) (l : List TEvent)
    (h : ∀ e ∈ l, e.isInc = true) :
    runSchedule o l =
      { ref_count := o.ref_count + (l.length : Int), destroys := o.destroys } := by
  induction l generalizing o with
  | nil => simp [runSchedule]
  | cons e l ih =>
    cases e with
    | inc tid =>
      simp only [runSchedule, TEvent.apply]
      rw [ih o.incRef (fun e he => h e (List.mem_cons_of_mem _ he))]
      simp [GCObject.incRef]
      omega
    | dec tid =>
      have := h (.dec tid) (List.mem_cons_self _ _)
      simp [TEvent.isInc] at this

/-- A schedule segment of decrements only, run from an object whose count
equals the segment length (each decrement paired with one of the owners),
destroys the object exactly once, in the decrement that observes the zero
transition. -/
theorem runSchedule_decs (o : GCObject) (l : List TEvent)
    (h : ∀ e ∈ l, e.isInc = false)
    (hc : o.ref_count = (l.length : Int)) (hd : o.destroys = 0)
    (hl : 1 ≤ l.length) :
    runSchedule o l = { ref_count := 0, destroys := 1 } := by
  induction l generalizing o with
  | nil => simp at hl
  | cons e l ih =>
    cases e with
    | inc tid =>
      have := h (.inc tid) (List.mem_cons_self _ _)
      simp [TEvent.isInc] at this
    | dec tid =>
      simp only [runSchedule, TEvent.apply]
      cases l with
      | nil =>
        have h1 : o.ref_count = 1 := by simpa using hc
        simp [runSchedule, GCObject.decRef, h1, hd]
      | cons e2 l2 =>
        have hlen : 1 ≤ (e2 :: l2).length := by simp
        have h1 : ¬(o.ref_count = 1) := by
          simp at hc
          omega
        rw [GCObject.decRef, if_neg h1]
        refine ih _ (fun e he => h e (List.mem_cons_of_mem _ he)) ?_ hd hlen
        simp at hc ⊢
        omega

/-- C7: in the concurrency-safe variant, for every K ≥ 1 and every thread
interleaving in which each of the K owners performs its atomic increment
before the barrier and its atomic decrement after it, the shared object
(allocated with count 0) is destroyed exactly once, with final count 0. Each
increment and decrement is a single atomic read-modify-write, so the
interleavings are exactly the barrier schedules quantified over here. -/
theorem c7_barrier_schedules_destroy_once (K : Nat) (l : List TEvent)
    (hK : 1 ≤ K) (hl : barrierSchedule K l) :
    (runSchedule GCSingleObject.allocate_impl l).destroys = 1 ∧
    (runSchedule GCSingleObject.allocate_impl l).ref_count = 0 := by
  obtain ⟨incs, decs, rfl, hinc, hdec, hlen1, hlen2⟩ := hl
  rw [runSchedule_append, runSchedule_incs _ _ hinc]
  have hc : (GCObject.mk (GCSingleObject.allocate_impl.ref_count + (incs.length : Int))
      GCSingleObject.allocate_impl.destroys).ref_count = (decs.length : Int) := by
    simp [GCSingleObject.allocate_impl]
    omega
  have hres := runSchedule_decs _ decs hdec hc rfl (by omega)
  rw [hres]
  exact ⟨rfl, rfl⟩

/-- Witness for C7: two threads, increments before the barrier, decrements
after it in the reverse interleaving — exactly one destroy. -/
theorem c7_barrier_schedules_destroy_once_witness :
    (runSchedule GCSingleObject.allocate_impl
      [TEvent.inc 0, TEvent.inc 1, TEvent.dec 1, TEvent.dec 0]).destroys = 1 := by
  have h := c7_barrier_schedules_destroy_once 2
    [TEvent.inc 0, TEvent.inc 1, TEvent.dec 1, TEvent.dec 0] (by decide)
    ⟨[TEvent.inc 0, TEvent.inc 1], [TEvent.dec 1, TEvent.dec 0], rfl,
      by decide, by decide, rfl, rfl⟩
  exact h.1

/-- Protocol invariant of the handle machine: the object's count equals the
number of holding handles, `destroy()` has run exactly once precisely when
the pointer has been wrapped and no holder remains (and never otherwise),
and holding handles exist only once the pointer has been wrapped. -/
def RCInv (s : RCState) : Prop :=
  s.obj.ref_count = (s.numHolding : Int) ∧
  s.obj.destroys = (if s.wrapped = true ∧ s.numHolding = 0 then 1 else 0) ∧
  (s.wrapped = false → s.numHolding = 0)

/-- Construction from the raw pointer (while the object is alive) preserves
the invariant. -/
theorem rcinv_fromRaw (s : RCState) (hok : s.obj.destroys = 0) (hinv : RCInv s) :
    RCInv (s.step ROp.fromRaw) := by
  obtain ⟨hc, hd, hw⟩ := hinv
  simp only [RCState.numHolding] at hc hd hw
  refine ⟨?_, ?_, ?_⟩
  · simp [RCState.step, RCState.numHolding, countTrue_append, countTrue, GCObject.incRef]
    omega
  · simp [RCState.step, RCState.numHolding, countTrue_append, countTrue, GCObject.incRef, hok]
  · simp [RCState.step]

/-- Copy construction from an existing handle preserves the invariant. -/
theorem rcinv_copyFrom (s : RCState) (i : Nat) (_hok : i < s.handles.length)
    (hinv : RCInv s) : RCInv (s.step (ROp.copyFrom i)) := by
  obtain ⟨hc, hd, hw⟩ := hinv
  simp only [RCState.numHolding] at hc hd hw
  by_cases hhi : s.holds i = true
  · have hpos : 1 ≤ countTrue s.handles := countTrue_pos_of_getD _ i hhi
    cases hwr : s.wrapped with
    | false => exact absurd (hw hwr) (by omega)
    | true =>
      rw [hwr] at hd
      simp only [true_and] at hd
      refine ⟨?_, ?_, ?_⟩
      · simp [RCState.step, RCState.numHolding, countTrue_append, countTrue,
          GCObject.incRef, hhi]
        omega
      · simp [RCState.step, RCState.numHolding, countTrue_append, countTrue,
          GCObject.incRef, hhi, hwr]
        rw [hd, if_neg (by omega)]
      · simp [RCState.step, hhi, hwr]
  · have hhi2 : s.holds i = false := by simpa using hhi
    refine ⟨?_, ?_, ?_⟩
    · simp [RCState.step, RCState.numHolding, countTrue_append, countTrue, hhi2]
      omega
    · simp [RCState.step, RCState.numHolding, countTrue_append, countTrue, hhi2]
      exact hd
    · intro hwr
      simp only [RCState.step, hhi2] at hwr ⊢
      simp [RCState.numHolding, countTrue_append, countTrue]
      simp at hwr
      exact hw hwr

/-- Move construction from an existing handle preserves the invariant: the
holding status migrates to the new handle, so the holder count, the count,
and the destroy history are untouched. -/
theorem rcinv_moveFrom (s : RCState) (i : Nat) (hok : i < s.handles.length)
    (hinv : RCInv s) : RCInv (s.step (ROp.moveFrom i)) := by
  obtain ⟨hc, hd, hw⟩ := hinv
  simp only [RCState.numHolding] at hc hd hw
  have hset : countTrue (s.handles.set i false) + (if s.holds i then 1 else 0)
      = countTrue s.handles + (if false then 1 else 0) :=
    countTrue_set s.handles i false hok
  have hn : countTrue ((s.handles.set i false) ++ [s.holds i])
      = countTrue s.handles := by
    rw [countTrue_append]
    cases hhi : s.holds i with
    | false => rw [hhi] at hset; simp [countTrue] at hset ⊢; omega
    | true => rw [hhi] at hset; simp [countTrue] at hset ⊢; omega
  refine ⟨?_, ?_, ?_⟩
  · simp only [RCState.step, RCState.numHolding, hn]
    exact hc
  · simp only [RCState.step, RCState.numHolding, hn]
    exact hd
  · intro hwr
    simp only [RCState.step] at hwr ⊢
    simp only [RCState.numHolding, hn]
    exact hw hwr

/-- Scope exit (the handle's destructor) preserves the invariant; when the
exiting handle is the last holder the decrement destroys the object. -/
theorem rcinv_scopeExit (s : RCState) (i : Nat) (hok : i < s.handles.length)
    (hinv : RCInv s) : RCInv (s.step (ROp.scopeExit i)) := by
  obtain ⟨hc, hd, hw⟩ := hinv
  simp only [RCState.numHolding] at hc hd hw
  have hset : countTrue (s.handles.set i false) + (if s.holds i then 1 else 0)
      = countTrue s.handles + (if false then 1 else 0) :=
    countTrue_set s.handles i false hok
  by_cases hhi : s.holds i = true
  · have hpos : 1 ≤ countTrue s.handles := countTrue_pos_of_getD _ i hhi
    rw [hhi] at hset
    simp at hset
    cases hwr : s.wrapped with
    | false => exact absurd (hw hwr) (by omega)
    | true =>
      rw [hwr] at hd
      simp only [true_and] at hd
      refine ⟨?_, ?_, ?_⟩
      · simp [RCState.step, RCState.numHolding, GCObject.decRef, hhi]
        split_ifs <;> simp <;> omega
      · simp [RCState.step, RCState.numHolding, GCObject.decRef, hhi, hwr]
        split_ifs at hd ⊢ <;> simp_all <;> omega
      · simp [RCState.step, hhi, hwr]
  · have hhi2 : s.holds i = false := by simpa using hhi
    rw [hhi2] at hset
    simp at hset
    refine ⟨?_, ?_, ?_⟩
    · simp [RCState.step, RCState.numHolding, hhi2]
      omega
    · simp [RCState.step, RCState.numHolding, hhi2]
      split_ifs at hd ⊢ <;> simp_all <;> omega
    · intro hwr
      simp only [RCState.step, hhi2] at hwr ⊢
      simp [RCState.numHolding]
      simp at hwr
      have := hw hwr
      omega

/-- Copy assignment between handles preserves the invariant; the release of
the destination's previous holding may destroy the object when it was the
last holder, and self-assignment changes nothing. -/
theorem rcinv_copyAssign (s : RCState) (i j : Nat) (hoki : i < s.handles.length)
    (_hokj : j < s.handles.length) (hinv : RCInv s) :
    RCInv (s.step (ROp.copyAssign i j)) := by
  obtain ⟨hc, hd, hw⟩ := hinv
  simp only [RCState.numHolding] at hc hd hw
  by_cases hij : i = j
  · subst hij
    simpa [RCState.step, RCState.numHolding] using ⟨hc, hd, hw⟩
  · have hset : countTrue (s.handles.set i (s.holds j)) + (if s.holds i then 1 else 0)
        = countTrue s.handles + (if s.holds j then 1 else 0) :=
      countTrue_set s.handles i (s.holds j) hoki
    by_cases hhi : s.holds i = true <;> by_cases hhj : s.holds j = true
    · rw [hhi, hhj] at hset
      simp at hset
      have htwo : 2 ≤ countTrue s.handles := countTrue_two_of_getD _ i j hij hhi hhj
      cases hwr : s.wrapped with
      | false => exact absurd (hw hwr) (by omega)
      | true =>
        rw [hwr] at hd
        simp only [true_and] at hd
        refine ⟨?_, ?_, ?_⟩
        · simp [RCState.step, RCState.numHolding, GCObject.decRef, GCObject.incRef,
            hij, hhi, hhj]
          split_ifs <;> simp <;> omega
        · simp [RCState.step, RCState.numHolding, GCObject.decRef, GCObject.incRef,
            hij, hhi, hhj, hwr]
          split_ifs at hd ⊢ <;> simp_all <;> omega
        · simp [RCState.step, hij, hhi, hhj, hwr]
    · have hhj2 : s.holds j = false := by simpa using hhj
      rw [hhi, hhj2] at hset
      simp at hset
      have hpos : 1 ≤ countTrue s.handles := countTrue_pos_of_getD _ i hhi
      cases hwr : s.wrapped with
      | false => exact absurd (hw hwr) (by omega)
      | true =>
        rw [hwr] at hd
        simp only [true_and] at hd
        refine ⟨?_, ?_, ?_⟩
        · simp [RCState.step, RCState.numHolding, GCObject.decRef, hij, hhi, hhj2]
          split_ifs <;> simp <;> omega
        · simp [RCState.step, RCState.numHolding, GCObject.decRef, hij, hhi, hhj2, hwr]
          split_ifs at hd ⊢ <;> simp_all <;> omega
        · simp [RCState.step, hij, hhi, hhj2, hwr]
    · have hhi2 : s.holds i = false := by simpa using hhi
      rw [hhi2, hhj] at hset
      simp at hset
      have hpos : 1 ≤ countTrue s.handles := countTrue_pos_of_getD _ j hhj
      cases hwr : s.wrapped with
      | false => exact absurd (hw hwr) (by omega)
      | true =>
        rw [hwr] at hd
        simp only [true_and] at hd
        refine ⟨?_, ?_, ?_⟩
        · simp [RCState.step, RCState.numHolding, GCObject.incRef, hij, hhi2, hhj]
          omega
        · simp [RCState.step, RCState.numHolding, GCObject.incRef, hij, hhi2, hhj, hwr]
          split_ifs at hd ⊢ <;> simp_all <;> omega
        · simp [RCState.step, hij, hhi2, hhj, hwr]
    · have hhi2 : s.holds i = false := by simpa using hhi
      have hhj2 : s.holds j = false := by simpa using hhj
      rw [hhi2, hhj2] at hset
      simp at hset
      refine ⟨?_, ?_, ?_⟩
      · simp [RCState.step, RCState.numHolding, hij, hhi2, hhj2]
        omega
      · simp [RCState.step, RCState.numHolding, hij, hhi2, hhj2]
        split_ifs at hd ⊢ <;> simp_all <;> omega
      · intro hwr
        simp only [RCState.step, hij, hhi2, hhj2] at hwr ⊢
        simp [RCState.numHolding]
        simp at hwr
        have := hw hwr
        omega

/-- Move assignment between handles preserves the invariant; the release of
the destination's previous holding may destroy the object when it was the
last holder; afterwards the source is empty and the moved holding is
accounted to the destination. -/
theorem rcinv_moveAssign (s : RCState) (i j : Nat) (hoki : i < s.handles.length)
    (hokj : j < s.handles.length) (hinv : RCInv s) :
    RCInv (s.step (ROp.moveAssign i j)) := by
  obtain ⟨hc, hd, hw⟩ := hinv
  simp only [RCState.numHolding] at hc hd hw
  by_cases hij : i = j
  · subst hij
    simpa [RCState.step, RCState.numHolding] using ⟨hc, hd, hw⟩
  · have hset : countTrue (s.handles.set i (s.holds j)) + (if s.holds i then 1 else 0)
        = countTrue s.handles + (if s.holds j then 1 else 0) :=
      countTrue_set s.handles i (s.holds j) hoki
    have hgd : (s.handles.set i (s.holds j)).getD j false = s.holds j :=
      getD_set_ne _ i j _ hij
    have hset2 : countTrue ((s.handles.set i (s.holds j)).set j false)
        + (if s.holds j then 1 else 0)
        = countTrue (s.handles.set i (s.holds j)) + (if false then 1 else 0) := by
      have hlen : j < (s.handles.set i (s.holds j)).length := by simpa using hokj
      have h2 := countTrue_set (s.handles.set i (s.holds j)) j false hlen
      rwa [hgd] at h2
    by_cases hhi : s.holds i = true <;> by_cases hhj : s.holds j = true
    · rw [hhi, hhj] at hset
      rw [hhj] at hset2
      simp at hset hset2
      have htwo : 2 ≤ countTrue s.handles := countTrue_two_of_getD _ i j hij hhi hhj
      cases hwr : s.wrapped with
      | false => exact absurd (hw hwr) (by omega)
      | true =>
        rw [hwr] at hd
        simp only [true_and] at hd
        refine ⟨?_, ?_, ?_⟩
        · simp [RCState.step, RCState.numHolding, GCObject.decRef, hij, hhi, hhj]
          split_ifs <;> simp <;> omega
        · simp [RCState.step, RCState.numHolding, GCObject.decRef, hij, hhi, hhj, hwr]
          split_ifs at hd ⊢ <;> simp_all <;> omega
        · simp [RCState.step, hij, hhi, hhj, hwr]
    · have hhj2 : s.holds j = false := by simpa using hhj
      rw [hhi, hhj2] at hset
      rw [hhj2] at hset2
      simp at hset hset2
      have hpos : 1 ≤ countTrue s.handles := countTrue_pos_of_getD _ i hhi
      cases hwr : s.wrapped with
      | false => exact absurd (hw hwr) (by omega)
      | true =>
        rw [hwr] at hd
        simp only [true_and] at hd
        refine ⟨?_, ?_, ?_⟩
        · simp [RCState.step, RCState.numHolding, GCObject.decRef, hij, hhi, hhj2]
          split_ifs <;> simp <;> omega
        · simp [RCState.step, RCState.numHolding, GCObject.decRef, hij, hhi, hhj2, hwr]
          split_ifs at hd ⊢ <;> simp_all <;> omega
        · simp [RCState.step, hij, hhi, hhj2, hwr]
    · have hhi2 : s.holds i = false := by simpa using hhi
      rw [hhi2, hhj] at hset
      rw [hhj] at hset2
      simp at hset hset2
      have hpos : 1 ≤ countTrue s.handles := countTrue_pos_of_getD _ j hhj
      cases hwr : s.wrapped with
      | false => exact absurd (hw hwr) (by omega)
      | true =>
        rw [hwr] at hd
        simp only [true_and] at hd
        refine ⟨?_, ?_, ?_⟩
        · simp [RCState.step, RCState.numHolding, hij, hhi2, hhj]
          omega
        · simp [RCState.step, RCState.numHolding, hij, hhi2, hhj, hwr]
          split_ifs at hd ⊢ <;> simp_all <;> omega
        · simp [RCState.step, hij, hhi2, hhj, hwr]
    · have hhi2 : s.holds i = false := by simpa using hhi
      have hhj2 : s.holds j = false := by simpa using hhj
      rw [hhi2, hhj2] at hset
      rw [hhj2] at hset2
      simp at hset hset2
      refine ⟨?_, ?_, ?_⟩
      · simp [RCState.step, RCState.numHolding, hij, hhi2, hhj2]
        omega
      · simp [RCState.step, RCState.numHolding, hij, hhi2, hhj2]
        split_ifs at hd ⊢ <;> simp_all <;> omega
      · intro hwr
        simp only [RCState.step, hij, hhi2, hhj2] at hwr ⊢
        simp [RCState.numHolding]
        simp at hwr
        have := hw hwr
        omega

/-- Every well-formed operation preserves the protocol invariant. -/
theorem RCInv_step (s : RCState) (op : ROp) (hok : op.ok s = true)
    (hinv : RCInv s) : RCInv (s.step op) := by
  cases op with
  | fromRaw =>
    simp only [ROp.ok, decide_eq_true_eq] at hok
    exact rcinv_fromRaw s hok hinv
  | copyFrom i =>
    simp only [ROp.ok, decide_eq_true_eq] at hok
    exact rcinv_copyFrom s i hok hinv
  | moveFrom i =>
    simp only [ROp.ok, decide_eq_true_eq] at hok
    exact rcinv_moveFrom s i hok hinv
  | copyAssign i j =>
    simp only [ROp.ok, Bool.and_eq_true, decide_eq_true_eq] at hok
    exact rcinv_copyAssign s i j hok.1 hok.2 hinv
  | moveAssign i j =>
    simp only [ROp.ok, Bool.and_eq_true, decide_eq_true_eq] at hok
    exact rcinv_moveAssign s i j hok.1 hok.2 hinv
  | scopeExit i =>
    simp only [ROp.ok, decide_eq_true_eq] at hok
    exact rcinv_scopeExit s i hok hinv

/-- The invariant holds after every well-formed run. -/
theorem RCInv_run (l : List ROp) : ∀ s : RCState, RCInv s →
    s.validRun l = true → RCInv (s.run l) := by
  induction l with
  | nil => exact fun s h _ => h
  | cons op l ih =>
    intro s hs hv
    simp only [RCState.validRun, Bool.and_eq_true] at hv
    exact ih _ (RCInv_step s op hv.1 hs) hv.2

/-- The initial state (freshly allocated object, no handles) satisfies the
invariant. -/
theorem RCInv_init : RCInv RCState.init := by
  refine ⟨rfl, ?_, fun _ => rfl⟩
  simp [RCState.init, RCState.numHolding, countTrue]

/-- C1: along every well-formed finite sequence of construct-from-raw-pointer,
copy, move, assignment, and scope-exit operations on owning handles that all
reference one object allocated with count 0, `destroy()` is invoked at most
once, and it has been invoked exactly once precisely when the pointer was
wrapped and no holding handle remains — i.e. only by the decrement performed
when the last existing handle released the object; throughout, the count
equals the number of holding handles. -/
theorem c1_destroy_exactly_once (l : List ROp)
    (hv : RCState.init.validRun l = true) :
    (RCState.init.run l).obj.destroys ≤ 1 ∧
    ((RCState.init.run l).obj.destroys = 1 ↔
      (RCState.init.run l).wrapped = true ∧
      (RCState.init.run l).numHolding = 0) ∧
    (RCState.init.run l).obj.ref_count
      = ((RCState.init.run l).numHolding : Int) := by
  obtain ⟨h1, h2, h3⟩ := RCInv_run l RCState.init RCInv_init hv
  refine ⟨?_, ?_, h1⟩
  · rw [h2]; split_ifs <;> omega
  · rw [h2]; split_ifs with hcond <;> simp [hcond]

/-- Witness for C1 on a concrete trace: wrap the pointer, copy the handle,
then both scope exits — a well-formed run ending with one destroy. -/
theorem c1_destroy_exactly_once_witness :
    RCState.init.validRun
      [ROp.fromRaw, ROp.copyFrom 0, ROp.scopeExit 0, ROp.scopeExit 1] = true ∧
    (RCState.init.run
      [ROp.fromRaw, ROp.copyFrom 0, ROp.scopeExit 0, ROp.scopeExit 1]).obj.destroys
      ≤ 1 := by
  refine ⟨by decide, ?_⟩
  exact (c1_destroy_exactly_once
    [ROp.fromRaw, ROp.copyFrom 0, ROp.scopeExit 0, ROp.scopeExit 1] (by decide)).1
